import Mathlib

/-! jwt-decode: configuration resolution and claim mapping (`config/config.go`)

A shallow embedding of the `config` package: environment variables with
required / default / optional semantics (`envVar.get`, `getInt64`, `getBool`),
the claim mapping table built from a file and an inline string
(`claimMappingsT.fromString`, `Config.getClaimMappings`), the cache sizing of
`Config.getCache` and the decoder selection of `Config.getServer`.

Conventions of the embedding:
* a Go `string` is a list of characters (`GoString`); the code only compares
  strings for equality and cuts them at the ASCII separators `,` and `:`;
* a Go `map[string]string` is a list of entries with unique keys, read with
  `claimMappingsT.index` and written with `claimMappingsT.store`;
* `panic(err)` is the `Except.error` result, a returned `error` is an
  `Option` next to the value (`none` is Go's `nil`);
* `int64` is an `Int` in the range of `wrapInt64`;
* the operating system and the libraries the package calls are the fields of
  `World`; logging has no effect on results and is left out.
-/

namespace JwtDecode

/-- A Go string. -/
abbrev GoString := List Char

/-- An error value produced outside the package (os, encoding/json, strconv,
ristretto, the decoder package), identified by its message. -/
abbrev ExtErr := GoString

/-- The error values the package itself builds with `fmt.Errorf` (each
constructor is one format string, with its arguments), and the errors it
passes on from a library. -/
inductive Error where
  /-- Message "required key %s not found in env". -/
  | requiredKeyNotFound (name : GoString)
  /-- Message "has to be an integer: %w". -/
  | hasToBeAnInteger (err : ExtErr)
  /-- Message "unknown bool value %s". -/
  | unknownBoolValue (str : GoString)
  /-- Message "Max keys need to be a positive number, was %d". -/
  | maxKeysNotPositive (keys : Int)
  /-- Message "either file or env needs to be valid". -/
  | eitherFileOrEnv
  /-- Message "unexpected number of ':' in claim mapping '%s'". -/
  | unexpectedColons (mapping : GoString)
  /-- An error of a library, passed on unchanged. -/
  | external (err : ExtErr)
  deriving DecidableEq, Repr

deriving instance DecidableEq for Except

/-! ## Go library functions used by the package -/

/-- Go `strings.Split(s, sep)` for a one-byte separator: the substrings between
the occurrences of `sep`; the empty string gives one empty substring. -/
def strings.Split : GoString → Char → List GoString
  | [], _ => [[]]
  | c :: cs, sep =>
    if c = sep then [] :: strings.Split cs sep
    else
      match strings.Split cs sep with
      | [] => [[c]]
      | f :: fs => (c :: f) :: fs

/-- Go `strings.LastIndex(s, sep)` for a one-byte separator: the index of the
last occurrence of `sep` in `s`, or `-1`. -/
def strings.LastIndex : GoString → Char → Int
  | [], _ => -1
  | c :: cs, sep =>
    if strings.LastIndex cs sep ≠ -1 then strings.LastIndex cs sep + 1
    else if c = sep then 0
    else -1

/-- Go slice expression `s[:i]`. -/
def sliceTo (s : GoString) (i : Int) : GoString := s.take i.toNat

/-- Go slice expression `s[i:]`. -/
def sliceFrom (s : GoString) (i : Int) : GoString := s.drop i.toNat

/-- Two's complement wrap-around of an integer into the `int64` range. -/
def wrapInt64 (x : Int) : Int := (x + 2 ^ 63) % 2 ^ 64 - 2 ^ 63

/-- Go `int64` multiplication. -/
def mulInt64 (a b : Int) : Int := wrapInt64 (a * b)

/-! ## The claim mapping table -/

/-- Go `type claimMappingsT map[string]string`. -/
structure claimMappingsT where
  entries : List (GoString × GoString)
  deriving DecidableEq, Repr

/-- Reading a key in a list of entries. -/
def indexEntries (k : GoString) : List (GoString × GoString) → Option GoString
  | [] => none
  | (k', v') :: rest => if k' = k then some v' else indexEntries k rest

/-- Writing a key in a list of entries: the entry of the key is replaced, or
a new entry is added. -/
def storeEntries (k v : GoString) : List (GoString × GoString) → List (GoString × GoString)
  | [] => [(k, v)]
  | (k', v') :: rest => if k' = k then (k, v) :: rest else (k', v') :: storeEntries k v rest

/-- Go `make(map[string]string)`. -/
def claimMappingsT.make : claimMappingsT := ⟨[]⟩

/-- Go `v, ok := c[k]`. -/
def claimMappingsT.index (c : claimMappingsT) (k : GoString) : Option GoString :=
  indexEntries k c.entries

/-- Go `c[k] = v`. -/
def claimMappingsT.store (c : claimMappingsT) (k v : GoString) : claimMappingsT :=
  ⟨storeEntries k v c.entries⟩

/-! ## The environment and the libraries -/

/-- Go `ristretto.Config`, the fields `getCache` sets. -/
structure RistrettoConfig where
  NumCounters : Int
  MaxCost : Int
  BufferItems : Int
  Metrics : Bool
  deriving DecidableEq, Repr

/-- What the package takes from outside: the process environment, the file
system, the JSON decoder, `strconv.ParseInt`, and whether the constructors of
the cache and of the decoder fail. -/
structure World where
  /-- Go `os.Getenv`: the value of a variable, empty when it is unset. -/
  Getenv : GoString → GoString
  /-- The error of `os.Open` on a path. -/
  Open : GoString → Option ExtErr
  /-- Go `json.NewDecoder(file).Decode(&c)` on the opened file of a path: the
  map afterwards and the error. -/
  Decode : GoString → claimMappingsT → claimMappingsT × Option ExtErr
  /-- Go `strconv.ParseInt(s, 10, 64)`: the value and the error. -/
  ParseInt : GoString → Int × Option ExtErr
  /-- The error of `ristretto.NewCache` on a configuration. -/
  NewCache : RistrettoConfig → Option ExtErr
  /-- The error of `decoder.NewJwsDecoder` on a JWKS URL and a claim mapping. -/
  NewJwsDecoder : GoString → claimMappingsT → Option ExtErr

/-! ## Environment variables -/

/-- Go `type envVar struct`. -/
structure envVar where
  name : GoString
  defaultValue : GoString
  required : Bool
  deriving DecidableEq, Repr

/-- Go `func withDefault(name, defaultValue string) envVar`. -/
def withDefault (name defaultValue : GoString) : envVar :=
  { name := name, defaultValue := defaultValue, required := true }

/-- Go `func required(name string) envVar`. -/
def required (name : GoString) : envVar :=
  { name := name, defaultValue := [], required := true }

/-- Go `func optional(name string) envVar`. -/
def optional (name : GoString) : envVar :=
  { name := name, defaultValue := [], required := false }

/-- Go `func (e envVar) get() string`. -/
def envVar.get (w : World) (e : envVar) : Except Error GoString :=
  if w.Getenv e.name ≠ [] then Except.ok (w.Getenv e.name)
  else if e.defaultValue = [] ∧ e.required = true then
    Except.error (Error.requiredKeyNotFound e.name)
  else Except.ok e.defaultValue

/-- Go `func (e envVar) getInt64() (val int64)`. -/
def envVar.getInt64 (w : World) (e : envVar) : Except Error Int :=
  match e.get w with
  | Except.error err => Except.error err
  | Except.ok str =>
    match w.ParseInt str with
    | (_, some err) => Except.error (Error.hasToBeAnInteger err)
    | (val, none) => Except.ok val

/-- Go `func (e envVar) getBool() (val bool)`. -/
def envVar.getBool (w : World) (e : envVar) : Except Error Bool :=
  match e.get w with
  | Except.error err => Except.error err
  | Except.ok str =>
    if str = "true".toList then Except.ok true
    else if str = "false".toList then Except.ok false
    else Except.error (Error.unknownBoolValue str)

/-! ## Parsing and merging the claim mappings -/

/-- Go `func (c claimMappingsT) fromFile(path string) error`: the map after
the call and the returned error. -/
def claimMappingsT.fromFile (w : World) (c : claimMappingsT) (path : GoString) :
    claimMappingsT × Option ExtErr :=
  match w.Open path with
  | some err => (c, some err)
  | none => w.Decode path c

/-- The `for _, mapping := range mappings` loop of `fromString`: the map after
the loop and the returned error. -/
def fromStringLoop (c : claimMappingsT) : List GoString → claimMappingsT × Option Error
  | [] => (c, none)
  | mapping :: rest =>
    if mapping.length = 0 then fromStringLoop c rest
    else
      let lastInd := strings.LastIndex mapping ':'
      if lastInd = -1 then (c, some (Error.unexpectedColons mapping))
      else
        let key := sliceTo mapping lastInd
        let value := sliceFrom mapping (lastInd + 1)
        fromStringLoop (c.store key value) rest

/-- Go `func (c claimMappingsT) fromString(val string) error`: the map after
the call and the returned error. -/
def claimMappingsT.fromString (c : claimMappingsT) (val : GoString) :
    claimMappingsT × Option Error :=
  fromStringLoop c (strings.Split val ',')

/-! ## The configuration -/

/-- Go `type Config struct`. -/
structure Config where
  jwksURL : envVar
  forceJwksOnStart : envVar
  claimMappingFilePath : envVar
  authHeader : envVar
  tokenValidatedHeader : envVar
  multiClusterPrefix : envVar
  secretCacheTTL : envVar
  port : envVar
  logLevel : envVar
  logType : envVar
  maxCacheKeys : envVar
  cacheEnabled : envVar
  claimMappings : envVar
  usernameClaim : envVar
  validateAPIPaths : envVar
  keyCost : Int
  deriving DecidableEq, Repr

def JwksURLEnv : GoString := "JWKS_URL".toList
def ForceJwksOnStart : GoString := "FORCE_JWKS_ON_START".toList
def ForceJwksOnStartDefault : GoString := "true".toList
def ClaimMappingFileEnv : GoString := "CLAIM_MAPPING_FILE_PATH".toList
def ClaimMappingFileDefault : GoString := "config.json".toList
def AuthHeaderEnv : GoString := "AUTH_HEADER_KEY".toList
def AuthHeaderDefault : GoString := "Authorization".toList
def TokenValidatedHeaderEnv : GoString := "TOKEN_VALIDATED_HEADER_KEY".toList
def TokenValidatedHeaderDefault : GoString := "jwt-token-validated".toList
def MultiClusterPrefixEnv : GoString := "MULTI_CLUSTER_PREFIX".toList
def MultiClusterPrefixDefault : GoString := "multicluster".toList
def SecretCacheTTLEnv : GoString := "SECRET_CACHE_TTL".toList
def SecretCacheTTLDefault : GoString := "300".toList
def PortEnv : GoString := "PORT".toList
def PortDefault : GoString := "8080".toList
def LogLevelEnv : GoString := "LOG_LEVEL".toList
def LogLevelDefault : GoString := "info".toList
def LogTypeEnv : GoString := "LOG_TYPE".toList
def LogTypeDefault : GoString := "json".toList
def MaxCacheKeysEnv : GoString := "MAX_CACHE_KEYS".toList
def MaxCacheKeysDefault : GoString := "10000".toList
def CacheEnabledEnv : GoString := "CACHE_ENABLED".toList
def CacheEnabledDefault : GoString := "true".toList
def ClaimMappingsEnv : GoString := "CLAIM_MAPPINGS".toList
def UsernameClaimEnv : GoString := "OIDC_USERNAME_CLAIM".toList
def UsernameClaimDefault : GoString := "preferred_username".toList
def ValidateAPIPathsEnv : GoString := "VALIDATE_API_PATHS".toList
def ValidateAPIPathsDefault : GoString :=
  "/api/prometheus/,/api/prometheus-tenancy/,/api/alertmanager/,/api/hypercloud/,/api/multi-hypercloud/".toList

/-- Go `func NewConfig() *Config`. -/
def NewConfig : Config :=
  { jwksURL := required JwksURLEnv
    forceJwksOnStart := withDefault ForceJwksOnStart ForceJwksOnStartDefault
    claimMappingFilePath := withDefault ClaimMappingFileEnv ClaimMappingFileDefault
    authHeader := withDefault AuthHeaderEnv AuthHeaderDefault
    tokenValidatedHeader := withDefault TokenValidatedHeaderEnv TokenValidatedHeaderDefault
    multiClusterPrefix := withDefault MultiClusterPrefixEnv MultiClusterPrefixDefault
    secretCacheTTL := withDefault SecretCacheTTLEnv SecretCacheTTLDefault
    port := withDefault PortEnv PortDefault
    logLevel := withDefault LogLevelEnv LogLevelDefault
    logType := withDefault LogTypeEnv LogTypeDefault
    maxCacheKeys := withDefault MaxCacheKeysEnv MaxCacheKeysDefault
    cacheEnabled := withDefault CacheEnabledEnv CacheEnabledDefault
    usernameClaim := withDefault UsernameClaimEnv UsernameClaimDefault
    validateAPIPaths := withDefault ValidateAPIPathsEnv ValidateAPIPathsDefault
    claimMappings := optional ClaimMappingsEnv
    keyCost := 100 }

/-- Go `func (c *Config) getClaimMappings() map[string]string`. -/
def Config.getClaimMappings (w : World) (c : Config) : Except Error claimMappingsT :=
  match c.claimMappingFilePath.get w with
  | Except.error err => Except.error err
  | Except.ok path =>
    match claimMappingsT.fromFile w claimMappingsT.make path with
    | (afterFile, errFile) =>
      match c.claimMappings.get w with
      | Except.error err => Except.error err
      | Except.ok val =>
        match afterFile.fromString val with
        | (afterString, errString) =>
          if errString ≠ none then
            if errFile ≠ none then Except.error Error.eitherFileOrEnv
            else Except.ok afterString
          else Except.ok afterString

/-- The `*ristretto.Cache` built by `ristretto.NewCache`, identified by the
configuration it was built from. -/
structure Cache where
  config : RistrettoConfig
  deriving DecidableEq, Repr

/-- Go `func (c *Config) getCache(r *prom.Registry) *ristretto.Cache`, without
the registration of the cache gauges in the registry. -/
def Config.getCache (w : World) (c : Config) : Except Error Cache :=
  match c.maxCacheKeys.getInt64 w with
  | Except.error err => Except.error err
  | Except.ok keys =>
    if keys < 1 then Except.error (Error.maxKeysNotPositive keys)
    else
      let config : RistrettoConfig :=
        { NumCounters := 10000000
          MaxCost := mulInt64 keys c.keyCost
          BufferItems := 64
          Metrics := true }
      match w.NewCache config with
      | some err => Except.error (Error.external err)
      | none => Except.ok ⟨config⟩

/-- The first result of `decoder.NewJwsDecoder(jwksURL, claimMappings)`,
identified by the arguments of the call. -/
structure JwsDecoder where
  jwksURL : GoString
  claimMappings : claimMappingsT
  deriving DecidableEq, Repr

/-- Go `decoder.TokenDecoder`, as `getServer` builds it: the decoder itself, or
`decoder.NewCachedJwtDecoder(cache, jwsDec)`. -/
inductive TokenDecoder where
  | jws (jwsDec : JwsDecoder)
  | cached (cache : Cache) (jwsDec : JwsDecoder)
  deriving DecidableEq, Repr

/-- Go `func (c *Config) getServer(r *prom.Registry) *decoder.Server`, from its
first line to the selection of `dec` (lines 133 to 154): the token decoder
that is then handed to `decoder.NewServer`. -/
def Config.getServerDecoder (w : World) (c : Config) : Except Error TokenDecoder :=
  match c.jwksURL.get w with
  | Except.error err => Except.error err
  | Except.ok jwksURL =>
    match c.getClaimMappings w with
    | Except.error err => Except.error err
    | Except.ok claimMappings =>
      let jwsDec : JwsDecoder := ⟨jwksURL, claimMappings⟩
      let onFailure : Except Error Unit :=
        match w.NewJwsDecoder jwksURL claimMappings with
        | none => Except.ok ()
        | some _ =>
          match c.forceJwksOnStart.getBool w with
          | Except.error err => Except.error err
          | Except.ok _ => Except.ok ()
      match onFailure with
      | Except.error err => Except.error err
      | Except.ok _ =>
        match c.cacheEnabled.getBool w with
        | Except.error err => Except.error err
        | Except.ok true =>
          match c.getCache w with
          | Except.error err => Except.error err
          | Except.ok cache => Except.ok (TokenDecoder.cached cache jwsDec)
        | Except.ok false => Except.ok (TokenDecoder.jws jwsDec)

/-! ## Worlds for the examples -/

/-- A model of `strconv.ParseInt(s, 10, 64)` on the digits of a decimal
numeral: its value so far extended by the digits, or nothing on a character
that is no digit. -/
def parseDigits : GoString → Nat → Option Nat
  | [], acc => some acc
  | c :: cs, acc =>
    if '0' ≤ c ∧ c ≤ '9' then parseDigits cs (acc * 10 + (c.toNat - '0'.toNat)) else none

/-- A model of `strconv.ParseInt(s, 10, 64)`: an optional sign and decimal
digits; a syntax error gives 0 and an error, a value out of range the nearest
`int64` and an error. -/
def parseIntBase10 (s : GoString) : Int × Option ExtErr :=
  let (neg, digits) :=
    match s with
    | '-' :: ds => (true, ds)
    | '+' :: ds => (false, ds)
    | ds => (false, ds)
  if digits = [] then (0, some "invalid syntax".toList)
  else
    match parseDigits digits 0 with
    | none => (0, some "invalid syntax".toList)
    | some n =>
      if neg then
        if n ≤ 2 ^ 63 then (-(n : Int), none) else (-(2 ^ 63), some "value out of range".toList)
      else
        if n < 2 ^ 63 then ((n : Int), none) else (2 ^ 63 - 1, some "value out of range".toList)

/-- The environment given by a list of `name=value` settings; the first
setting of a name counts, an unset name reads as the empty string. -/
def getenvOf (vars : List (GoString × GoString)) (name : GoString) : GoString :=
  (indexEntries name vars).getD []

/-- A model of the checks of `ristretto.NewCache` on its configuration: none
of the three sizes may be zero. -/
def newCacheErr (config : RistrettoConfig) : Option ExtErr :=
  if config.NumCounters = 0 then some "NumCounters can't be zero".toList
  else if config.MaxCost = 0 then some "MaxCost can't be zero".toList
  else if config.BufferItems = 0 then some "BufferItems can't be zero".toList
  else none

/-- A world with the given environment, the given outcome of opening the
mapping file and of decoding it, the cache checks of `newCacheErr`, and a
decoder that is built without error (`decoderErr = none`) or fails. -/
def worldOf (vars : List (GoString × GoString)) (openErr : Option ExtErr)
    (decoded : claimMappingsT × Option ExtErr) (decoderErr : Option ExtErr) : World :=
  { Getenv := getenvOf vars
    Open := fun _ => openErr
    Decode := fun _ _ => decoded
    ParseInt := parseIntBase10
    NewCache := newCacheErr
    NewJwsDecoder := fun _ _ => decoderErr }

/-! ## Lemmas on the library functions and the table -/

theorem indexEntries_storeEntries_same (k v : GoString) (l : List (GoString × GoString)) :
    indexEntries k (storeEntries k v l) = some v := by
  induction l with
  | nil => simp [storeEntries, indexEntries]
  | cons p rest ih =>
    obtain ⟨k', v'⟩ := p
    by_cases h : k' = k
    · simp [storeEntries, indexEntries, h]
    · simp [storeEntries, indexEntries, h, ih]

theorem indexEntries_storeEntries_other (k v k' : GoString) (l : List (GoString × GoString))
    (h : k' ≠ k) : indexEntries k' (storeEntries k v l) = indexEntries k' l := by
  induction l with
  | nil => simp [storeEntries, indexEntries, Ne.symm h]
  | cons p rest ih =>
    obtain ⟨k₁, v₁⟩ := p
    by_cases h₁ : k₁ = k
    · subst h₁
      simp [storeEntries, indexEntries, Ne.symm h]
    · by_cases h₂ : k₁ = k'
      · subst h₂
        simp [storeEntries, indexEntries, h₁]
      · simp [storeEntries, indexEntries, h₁, h₂, ih]

theorem index_store_same (c : claimMappingsT) (k v : GoString) :
    (c.store k v).index k = some v :=
  indexEntries_storeEntries_same k v c.entries

theorem index_store_other (c : claimMappingsT) (k v k' : GoString) (h : k' ≠ k) :
    (c.store k v).index k' = c.index k' :=
  indexEntries_storeEntries_other k v k' c.entries h

theorem index_make (k : GoString) : claimMappingsT.make.index k = none := rfl

theorem lastIndex_ge (s : GoString) (sep : Char) : -1 ≤ strings.LastIndex s sep := by
  induction s with
  | nil => simp [strings.LastIndex]
  | cons c cs ih =>
    unfold strings.LastIndex
    split_ifs <;> omega

theorem lastIndex_eq_neg_one_iff (s : GoString) (sep : Char) :
    strings.LastIndex s sep = -1 ↔ sep ∉ s := by
  induction s with
  | nil => simp [strings.LastIndex]
  | cons c cs ih =>
    have hge := lastIndex_ge cs sep
    unfold strings.LastIndex
    by_cases h : strings.LastIndex cs sep = -1
    · have hcs : sep ∉ cs := ih.mp h
      by_cases hc : c = sep
      · simp [h, hc]
      · simp [h, hc, hcs, Ne.symm hc]
    · have hcs : sep ∈ cs := by
        by_contra hn
        exact h (ih.mpr hn)
      simp only [h, ne_eq, not_false_eq_true, if_true]
      constructor
      · intro h'
        omega
      · intro h'
        exact absurd (List.mem_cons_of_mem c hcs) h'

/-- A string with the separator is its part before the last separator, the
separator, and its part after it, which holds no separator. -/
theorem lastIndex_cut (s : GoString) (sep : Char) (h : sep ∈ s) :
    s = sliceTo s (strings.LastIndex s sep) ++ sep :: sliceFrom s (strings.LastIndex s sep + 1)
      ∧ sep ∉ sliceFrom s (strings.LastIndex s sep + 1) := by
  induction s with
  | nil => simp at h
  | cons c cs ih =>
    have hge := lastIndex_ge cs sep
    by_cases hl : strings.LastIndex cs sep = -1
    · have hcs : sep ∉ cs := (lastIndex_eq_neg_one_iff cs sep).mp hl
      have hc : c = sep := by
        rcases List.mem_cons.mp h with h' | h'
        · exact h'.symm
        · exact absurd h' hcs
      have hi : strings.LastIndex (c :: cs) sep = 0 := by
        unfold strings.LastIndex
        simp [hl, hc]
      rw [hi]
      simp [sliceTo, sliceFrom, hc, hcs]
    · have hcs : sep ∈ cs := by
        by_contra hn
        exact hl ((lastIndex_eq_neg_one_iff cs sep).mpr hn)
      obtain ⟨ih₁, ih₂⟩ := ih hcs
      have hi : strings.LastIndex (c :: cs) sep = strings.LastIndex cs sep + 1 := by
        conv_lhs => unfold strings.LastIndex
        simp [hl]
      have hn₁ : (strings.LastIndex cs sep + 1).toNat = (strings.LastIndex cs sep).toNat + 1 := by
        omega
      have hn₂ : (strings.LastIndex cs sep + 1 + 1).toNat
          = (strings.LastIndex cs sep + 1).toNat + 1 := by
        omega
      rw [hi]
      simp only [sliceTo, sliceFrom] at ih₁ ih₂ ⊢
      rw [hn₂, hn₁, List.take_succ_cons, List.drop_succ_cons, ← hn₁]
      refine ⟨?_, ih₂⟩
      rw [List.cons_append, ← ih₁]

/-- The cut of a string at its last separator is the only cut whose second
part holds no separator. -/
theorem cut_unique (sep : Char) (a b a' b' : GoString) (h : a ++ sep :: b = a' ++ sep :: b')
    (hb : sep ∉ b) (hb' : sep ∉ b') : a = a' ∧ b = b' := by
  induction a generalizing a' with
  | nil =>
    cases a' with
    | nil => simpa using h
    | cons x xs =>
      simp only [List.nil_append, List.cons_append, List.cons.injEq] at h
      exact absurd (h.2 ▸ List.mem_append_right xs (List.mem_cons_self sep b')) hb
  | cons y ys ih =>
    cases a' with
    | nil =>
      simp only [List.nil_append, List.cons_append, List.cons.injEq] at h
      exact absurd (h.2 ▸ List.mem_append_right ys (List.mem_cons_self sep b)) hb'
    | cons x xs =>
      simp only [List.cons_append, List.cons.injEq] at h
      obtain ⟨h₁, h₂⟩ := ih xs h.2
      exact ⟨by rw [h.1, h₁], h₂⟩

theorem split_ne_nil (s : GoString) (sep : Char) : strings.Split s sep ≠ [] := by
  cases s with
  | nil => simp [strings.Split]
  | cons c cs =>
    unfold strings.Split
    split_ifs
    · simp
    · split <;> simp

/-- A string without the separator is its own single fragment. -/
theorem split_of_not_mem (s : GoString) (sep : Char) (h : sep ∉ s) :
    strings.Split s sep = [s] := by
  induction s with
  | nil => rfl
  | cons c cs ih =>
    have hc : c ≠ sep := fun hc => h (hc ▸ List.mem_cons_self c cs)
    have hcs : sep ∉ cs := fun hcs => h (List.mem_cons_of_mem c hcs)
    unfold strings.Split
    simp [hc, ih hcs]

/-! ## Lemmas on the loop of `fromString` -/

theorem fromStringLoop_nil_cons (c : claimMappingsT) (rest : List GoString) :
    fromStringLoop c ([] :: rest) = fromStringLoop c rest := by
  simp [fromStringLoop]

theorem fromStringLoop_bad_cons (c : claimMappingsT) (bad : GoString) (rest : List GoString)
    (hne : bad ≠ []) (hbad : ':' ∉ bad) :
    fromStringLoop c (bad :: rest) = (c, some (Error.unexpectedColons bad)) := by
  have hlen : bad.length ≠ 0 := fun h => hne (List.length_eq_zero.mp h)
  have hidx : strings.LastIndex bad ':' = -1 := (lastIndex_eq_neg_one_iff bad ':').mpr hbad
  simp [fromStringLoop, hlen, hidx]

theorem fromStringLoop_good_cons (c : claimMappingsT) (f : GoString) (rest : List GoString)
    (hgood : ':' ∈ f) :
    fromStringLoop c (f :: rest)
      = fromStringLoop
          (c.store (sliceTo f (strings.LastIndex f ':'))
            (sliceFrom f (strings.LastIndex f ':' + 1))) rest := by
  have hlen : f.length ≠ 0 := by
    intro h
    rw [List.length_eq_zero.mp h] at hgood
    simp at hgood
  have hidx : strings.LastIndex f ':' ≠ -1 := fun h =>
    (lastIndex_eq_neg_one_iff f ':').mp h hgood
  simp [fromStringLoop, hlen, hidx]

/-- Whether the loop fails does not depend on the table it writes to. -/
theorem fromStringLoop_err_indep (c c' : claimMappingsT) (l : List GoString) :
    (fromStringLoop c l).2 = (fromStringLoop c' l).2 := by
  induction l generalizing c c' with
  | nil => rfl
  | cons f rest ih =>
    by_cases hne : f = []
    · subst hne
      rw [fromStringLoop_nil_cons, fromStringLoop_nil_cons]
      exact ih c c'
    · by_cases hgood : ':' ∈ f
      · rw [fromStringLoop_good_cons c f rest hgood, fromStringLoop_good_cons c' f rest hgood]
        exact ih _ _
      · rw [fromStringLoop_bad_cons c f rest hne hgood, fromStringLoop_bad_cons c' f rest hne hgood]

/-- The loop succeeds exactly when every fragment of non-zero length has a
colon. -/
theorem fromStringLoop_err_none_iff (c : claimMappingsT) (l : List GoString) :
    (fromStringLoop c l).2 = none ↔ ∀ f ∈ l, f ≠ [] → ':' ∈ f := by
  induction l generalizing c with
  | nil => simp [fromStringLoop]
  | cons f rest ih =>
    by_cases hne : f = []
    · subst hne
      rw [fromStringLoop_nil_cons, ih c]
      simp
    · by_cases hgood : ':' ∈ f
      · rw [fromStringLoop_good_cons c f rest hgood, ih]
        simp [hgood]
      · rw [fromStringLoop_bad_cons c f rest hne hgood]
        simp [hne, hgood]

/-- Reading a key after the loop: the value the loop gives the key on an empty
table, and without one the value the key had before. -/
theorem fromStringLoop_index (c : claimMappingsT) (l : List GoString) (k : GoString) :
    (fromStringLoop c l).1.index k
      = match (fromStringLoop claimMappingsT.make l).1.index k with
        | some v => some v
        | none => c.index k := by
  induction l generalizing c with
  | nil => simp [fromStringLoop, index_make]
  | cons f rest ih =>
    by_cases hne : f = []
    · subst hne
      rw [fromStringLoop_nil_cons, fromStringLoop_nil_cons]
      exact ih c
    · by_cases hgood : ':' ∈ f
      · rw [fromStringLoop_good_cons c f rest hgood,
          fromStringLoop_good_cons claimMappingsT.make f rest hgood, ih (c.store _ _),
          ih (claimMappingsT.make.store _ _)]
        cases hrest : (fromStringLoop claimMappingsT.make rest).1.index k with
        | some v => rfl
        | none =>
          by_cases hk : k = sliceTo f (strings.LastIndex f ':')
          · subst hk
            simp [index_store_same]
          · simp [index_store_other _ _ _ _ hk, index_make]
      · rw [fromStringLoop_bad_cons c f rest hne hgood,
          fromStringLoop_bad_cons claimMappingsT.make f rest hne hgood]
        simp [index_make]

/-- The loop stops at the first fragment of non-zero length without a colon:
the table is the one the fragments before it give. -/
theorem fromStringLoop_append_bad (c : claimMappingsT) (pre : List GoString) (bad : GoString)
    (post : List GoString) (hpre : ∀ f ∈ pre, f ≠ [] → ':' ∈ f) (hne : bad ≠ [])
    (hbad : ':' ∉ bad) :
    fromStringLoop c (pre ++ bad :: post)
      = ((fromStringLoop c pre).1, some (Error.unexpectedColons bad)) := by
  induction pre generalizing c with
  | nil =>
    rw [List.nil_append, fromStringLoop_bad_cons c bad post hne hbad]
    rfl
  | cons f rest ih =>
    have hrest : ∀ g ∈ rest, g ≠ [] → ':' ∈ g := fun g hg =>
      hpre g (List.mem_cons_of_mem f hg)
    by_cases hf : f = []
    · subst hf
      rw [List.cons_append, fromStringLoop_nil_cons, fromStringLoop_nil_cons]
      exact ih c hrest
    · have hgood : ':' ∈ f := hpre f (List.mem_cons_self f rest) hf
      rw [List.cons_append, fromStringLoop_good_cons c f _ hgood,
        fromStringLoop_good_cons c f rest hgood]
      exact ih _ hrest

theorem fromStringLoop_all_empty (c : claimMappingsT) (pre : List GoString)
    (hpre : ∀ f ∈ pre, f = []) : fromStringLoop c pre = (c, none) := by
  induction pre with
  | nil => rfl
  | cons f rest ih =>
    have hf : f = [] := hpre f (List.mem_cons_self f rest)
    subst hf
    rw [fromStringLoop_nil_cons]
    exact ih (fun g hg => hpre g (List.mem_cons_of_mem _ hg))

/-- A list with a malformed fragment splits at the first one. -/
theorem exists_first_bad (l : List GoString) (h : ∃ f ∈ l, f ≠ [] ∧ ':' ∉ f) :
    ∃ pre bad post, l = pre ++ bad :: post ∧ (∀ f ∈ pre, f ≠ [] → ':' ∈ f)
      ∧ bad ≠ [] ∧ ':' ∉ bad := by
  induction l with
  | nil =>
    obtain ⟨f, hf, _⟩ := h
    simp at hf
  | cons g rest ih =>
    by_cases hg : g ≠ [] ∧ ':' ∉ g
    · exact ⟨[], g, rest, rfl, by simp, hg.1, hg.2⟩
    · have hrest : ∃ f ∈ rest, f ≠ [] ∧ ':' ∉ f := by
        obtain ⟨f, hf, hf'⟩ := h
        rcases List.mem_cons.mp hf with hfg | hfr
        · exact absurd (hfg ▸ hf') hg
        · exact ⟨f, hfr, hf'⟩
      obtain ⟨pre, bad, post, hl, hpre, hne, hbad⟩ := ih hrest
      refine ⟨g :: pre, bad, post, by rw [hl, List.cons_append], ?_, hne, hbad⟩
      intro f hf hfne
      rcases List.mem_cons.mp hf with hfg | hfp
      · subst hfg
        by_contra hc
        exact hg ⟨hfne, hc⟩
      · exact hpre f hfp hfne

/-- The environment variables of `NewConfig` that always resolve. -/
theorem get_withDefault (w : World) (name d : GoString) (hd : d ≠ []) :
    (withDefault name d).get w = Except.ok (if w.Getenv name ≠ [] then w.Getenv name else d) := by
  unfold envVar.get withDefault
  by_cases h : w.Getenv name = [] <;> simp [h, hd]

theorem get_optional (w : World) (name : GoString) :
    (optional name).get w = Except.ok (w.Getenv name) := by
  unfold envVar.get optional
  by_cases h : w.Getenv name = [] <;> simp [h]

/-- How `getClaimMappings` ends on the configuration of `NewConfig`, from the
outcomes of its two sources. -/
theorem getClaimMappings_eq (w : World) (path : GoString)
    (hpath : NewConfig.claimMappingFilePath.get w = Except.ok path) :
    NewConfig.getClaimMappings w
      = if ((claimMappingsT.fromFile w claimMappingsT.make path).1.fromString
              (w.Getenv ClaimMappingsEnv)).2 ≠ none
            ∧ (claimMappingsT.fromFile w claimMappingsT.make path).2 ≠ none
        then Except.error Error.eitherFileOrEnv
        else Except.ok ((claimMappingsT.fromFile w claimMappingsT.make path).1.fromString
              (w.Getenv ClaimMappingsEnv)).1 := by
  have hinline : NewConfig.claimMappings.get w = Except.ok (w.Getenv ClaimMappingsEnv) :=
    get_optional w ClaimMappingsEnv
  unfold Config.getClaimMappings
  rw [hpath]
  simp only [hinline]
  by_cases h₁ : ((claimMappingsT.fromFile w claimMappingsT.make path).1.fromString
      (w.Getenv ClaimMappingsEnv)).2 = none
  · simp [h₁]
  · by_cases h₂ : (claimMappingsT.fromFile w claimMappingsT.make path).2 = none
    · simp [h₁, h₂]
    · simp [h₁, h₂]

theorem get_of_getenv_ne_nil (w : World) (e : envVar) (h : w.Getenv e.name ≠ []) :
    e.get w = Except.ok (w.Getenv e.name) := by
  unfold envVar.get
  rw [if_pos h]

/-- How `getBool` ends on the string `get` gives. -/
theorem getBool_eq (w : World) (e : envVar) (s : GoString) (hget : e.get w = Except.ok s) :
    e.getBool w
      = if s = "true".toList then Except.ok true
        else if s = "false".toList then Except.ok false
        else Except.error (Error.unknownBoolValue s) := by
  unfold envVar.getBool
  rw [hget]

theorem claimMappingFilePath_resolves (w : World) :
    ∃ path, NewConfig.claimMappingFilePath.get w = Except.ok path :=
  ⟨_, get_withDefault w ClaimMappingFileEnv ClaimMappingFileDefault (by decide)⟩

/-- The parts of a fragment `k ++ ":" ++ v` whose `v` has no colon, as
`fromString` cuts it. -/
theorem cut_of_append (k v : GoString) (hv : ':' ∉ v) :
    sliceTo (k ++ ':' :: v) (strings.LastIndex (k ++ ':' :: v) ':') = k
      ∧ sliceFrom (k ++ ':' :: v) (strings.LastIndex (k ++ ':' :: v) ':' + 1) = v := by
  have hmem : ':' ∈ k ++ ':' :: v := List.mem_append_right k (List.mem_cons_self ':' v)
  obtain ⟨hcut, hno⟩ := lastIndex_cut (k ++ ':' :: v) ':' hmem
  obtain ⟨h₁, h₂⟩ := cut_unique ':' _ _ _ _ hcut.symm hno hv
  exact ⟨h₁, h₂⟩

/-- Fragments that succeed may be run first. -/
theorem fromStringLoop_append_good (c : claimMappingsT) (pre rest : List GoString)
    (hpre : ∀ f ∈ pre, f ≠ [] → ':' ∈ f) :
    fromStringLoop c (pre ++ rest) = fromStringLoop (fromStringLoop c pre).1 rest := by
  induction pre generalizing c with
  | nil => rfl
  | cons f more ih =>
    have hmore : ∀ g ∈ more, g ≠ [] → ':' ∈ g := fun g hg =>
      hpre g (List.mem_cons_of_mem f hg)
    by_cases hf : f = []
    · subst hf
      rw [List.cons_append, fromStringLoop_nil_cons, fromStringLoop_nil_cons]
      exact ih c hmore
    · have hgood : ':' ∈ f := hpre f (List.mem_cons_self f more) hf
      rw [List.cons_append, fromStringLoop_good_cons c f _ hgood,
        fromStringLoop_good_cons c f more hgood]
      exact ih _ hmore

/-- A value read after the loop was there before or is the part after the last
colon of a fragment whose part before it is the key. -/
theorem fromStringLoop_index_some (c : claimMappingsT) (l : List GoString) (k v : GoString)
    (h : (fromStringLoop c l).1.index k = some v) :
    c.index k = some v ∨ ∃ f ∈ l, f = k ++ ':' :: v ∧ ':' ∉ v := by
  induction l generalizing c with
  | nil => exact Or.inl h
  | cons f rest ih =>
    by_cases hne : f = []
    · subst hne
      rw [fromStringLoop_nil_cons] at h
      rcases ih c h with h' | ⟨g, hg, hg'⟩
      · exact Or.inl h'
      · exact Or.inr ⟨g, List.mem_cons_of_mem _ hg, hg'⟩
    · by_cases hgood : ':' ∈ f
      · rw [fromStringLoop_good_cons c f rest hgood] at h
        rcases ih _ h with h' | ⟨g, hg, hg'⟩
        · obtain ⟨hcut, hno⟩ := lastIndex_cut f ':' hgood
          by_cases hk : k = sliceTo f (strings.LastIndex f ':')
          · rw [hk, index_store_same] at h'
            have hv : sliceFrom f (strings.LastIndex f ':' + 1) = v := Option.some.inj h'
            refine Or.inr ⟨f, List.mem_cons_self f rest, ?_, ?_⟩
            · rw [hk, ← hv]
              exact hcut
            · rw [← hv]
              exact hno
          · rw [index_store_other _ _ _ _ hk] at h'
            exact Or.inl h'
        · exact Or.inr ⟨g, List.mem_cons_of_mem _ hg, hg'⟩
      · rw [fromStringLoop_bad_cons c f rest hne hgood] at h
        exact Or.inl h

/-- Fragments that do not name a key leave it as it was. -/
theorem fromStringLoop_index_untouched (c : claimMappingsT) (l : List GoString) (k : GoString)
    (h : ∀ f ∈ l, ∀ v, ':' ∉ v → f ≠ k ++ ':' :: v) :
    (fromStringLoop c l).1.index k = c.index k := by
  rw [fromStringLoop_index]
  cases hI : (fromStringLoop claimMappingsT.make l).1.index k with
  | none => rfl
  | some v =>
    rcases fromStringLoop_index_some _ l k v hI with h' | ⟨f, hf, hf', hv⟩
    · rw [index_make] at h'
      cases h'
    · exact absurd hf' (h f hf v hv)

/-! ## The claims on `envVar` -/

/-- C1: `envVar.get` returns the environment value of the variable when it is
non-empty; otherwise the default when that is non-empty; otherwise it fails
with the required-key error naming the variable when the variable is required
and returns the empty string when it is not. It fails exactly when the
environment value is empty, the default is empty and the variable is
required. -/
theorem envVar_get_resolution (w : World) (e : envVar) :
    (w.Getenv e.name ≠ [] → e.get w = Except.ok (w.Getenv e.name))
    ∧ (w.Getenv e.name = [] → e.defaultValue ≠ [] → e.get w = Except.ok e.defaultValue)
    ∧ (w.Getenv e.name = [] → e.defaultValue = [] → e.required = true →
        e.get w = Except.error (Error.requiredKeyNotFound e.name))
    ∧ (w.Getenv e.name = [] → e.defaultValue = [] → e.required = false →
        e.get w = Except.ok [])
    ∧ ((∃ err, e.get w = Except.error err)
        ↔ (w.Getenv e.name = [] ∧ e.defaultValue = [] ∧ e.required = true)) := by
  unfold envVar.get
  refine ⟨?_, ?_, ?_, ?_, ?_⟩
  · intro h
    simp [h]
  · intro h hd
    simp [h, hd]
  · intro h hd hr
    simp [h, hd, hr]
  · intro h hd hr
    simp [h, hd, hr]
  · by_cases h : w.Getenv e.name = []
    · by_cases hd : e.defaultValue = []
      · cases hr : e.required <;> simp [h, hd, hr]
      · simp [h, hd]
    · simp [h]

/-- The four outcomes of `get` on concrete variables: JWKS_URL unset fails,
PORT unset gives its default, PORT set gives the setting, CLAIM_MAPPINGS unset
gives the empty string. -/
theorem envVar_get_resolution_witness :
    (required JwksURLEnv).get (worldOf [] none (⟨[]⟩, none) none)
        = Except.error (Error.requiredKeyNotFound "JWKS_URL".toList)
    ∧ (withDefault PortEnv PortDefault).get (worldOf [] none (⟨[]⟩, none) none)
        = Except.ok "8080".toList
    ∧ (withDefault PortEnv PortDefault).get
          (worldOf [("PORT".toList, "9090".toList)] none (⟨[]⟩, none) none)
        = Except.ok "9090".toList
    ∧ (optional ClaimMappingsEnv).get (worldOf [] none (⟨[]⟩, none) none) = Except.ok [] :=
  ⟨(envVar_get_resolution (worldOf [] none (⟨[]⟩, none) none) (required JwksURLEnv)).2.2.1
      (by decide) (by decide) (by decide),
    (envVar_get_resolution (worldOf [] none (⟨[]⟩, none) none) (withDefault PortEnv PortDefault)).2.1
      (by decide) (by decide),
    (envVar_get_resolution (worldOf [("PORT".toList, "9090".toList)] none (⟨[]⟩, none) none)
      (withDefault PortEnv PortDefault)).1 (by decide),
    (envVar_get_resolution (worldOf [] none (⟨[]⟩, none) none) (optional ClaimMappingsEnv)).2.2.2.1
      (by decide) (by decide) (by decide)⟩

/-- C7: when `get` gives the string `s`, `getBool` returns true for `s` exactly
"true", false for `s` exactly "false", and fails with the unknown-bool-value
error for every other `s`; so for a non-empty environment value `v` it
succeeds if and only if `v` is "true" or "false", and then returns the boolean
`v` denotes. -/
theorem envVar_getBool_exact (w : World) (e : envVar) (s : GoString)
    (hget : e.get w = Except.ok s) :
    (s = "true".toList → e.getBool w = Except.ok true)
    ∧ (s = "false".toList → e.getBool w = Except.ok false)
    ∧ (s ≠ "true".toList → s ≠ "false".toList →
        e.getBool w = Except.error (Error.unknownBoolValue s))
    ∧ (w.Getenv e.name ≠ [] →
        s = w.Getenv e.name
        ∧ ((∃ b, e.getBool w = Except.ok b)
            ↔ (w.Getenv e.name = "true".toList ∨ w.Getenv e.name = "false".toList))
        ∧ (∀ b, e.getBool w = Except.ok b → (b = true ↔ w.Getenv e.name = "true".toList))) := by
  have hbool := getBool_eq w e s hget
  refine ⟨?_, ?_, ?_, ?_⟩
  · intro h
    rw [hbool, if_pos h]
  · intro h
    have h' : s ≠ "true".toList := by
      rw [h]
      decide
    rw [hbool, if_neg h', if_pos h]
  · intro h₁ h₂
    rw [hbool, if_neg h₁, if_neg h₂]
  · intro hv
    have hs : s = w.Getenv e.name := by
      have h := get_of_getenv_ne_nil w e hv
      rw [hget] at h
      exact (Except.ok.inj h)
    rw [← hs, hbool]
    refine ⟨rfl, ?_, ?_⟩
    · by_cases h₁ : s = "true".toList
      · rw [if_pos h₁]
        exact ⟨fun _ => Or.inl h₁, fun _ => ⟨true, rfl⟩⟩
      · by_cases h₂ : s = "false".toList
        · rw [if_neg h₁, if_pos h₂]
          exact ⟨fun _ => Or.inr h₂, fun _ => ⟨false, rfl⟩⟩
        · rw [if_neg h₁, if_neg h₂]
          constructor
          · rintro ⟨b, hb⟩
            cases hb
          · rintro (h | h)
            · exact absurd h h₁
            · exact absurd h h₂
    · intro b
      by_cases h₁ : s = "true".toList
      · rw [if_pos h₁]
        intro hb
        rw [← Except.ok.inj hb]
        exact ⟨fun _ => h₁, fun _ => rfl⟩
      · by_cases h₂ : s = "false".toList
        · rw [if_neg h₁, if_pos h₂]
          intro hb
          rw [← Except.ok.inj hb]
          exact ⟨fun h => Bool.noConfusion h, fun h => absurd h h₁⟩
        · rw [if_neg h₁, if_neg h₂]
          intro hb
          cases hb

/-- CACHE_ENABLED set to "true" and to "false" is read as that boolean; set to
"True", "1", "yes" or " true" it is refused with the value in the error. -/
theorem envVar_getBool_exact_witness :
    (withDefault CacheEnabledEnv CacheEnabledDefault).getBool
        (worldOf [(CacheEnabledEnv, "true".toList)] none (⟨[]⟩, none) none) = Except.ok true
    ∧ (withDefault CacheEnabledEnv CacheEnabledDefault).getBool
        (worldOf [(CacheEnabledEnv, "false".toList)] none (⟨[]⟩, none) none) = Except.ok false
    ∧ (withDefault CacheEnabledEnv CacheEnabledDefault).getBool
        (worldOf [(CacheEnabledEnv, "True".toList)] none (⟨[]⟩, none) none)
          = Except.error (Error.unknownBoolValue "True".toList)
    ∧ (withDefault CacheEnabledEnv CacheEnabledDefault).getBool
        (worldOf [(CacheEnabledEnv, "1".toList)] none (⟨[]⟩, none) none)
          = Except.error (Error.unknownBoolValue "1".toList)
    ∧ (withDefault CacheEnabledEnv CacheEnabledDefault).getBool
        (worldOf [(CacheEnabledEnv, "yes".toList)] none (⟨[]⟩, none) none)
          = Except.error (Error.unknownBoolValue "yes".toList)
    ∧ (withDefault CacheEnabledEnv CacheEnabledDefault).getBool
        (worldOf [(CacheEnabledEnv, " true".toList)] none (⟨[]⟩, none) none)
          = Except.error (Error.unknownBoolValue " true".toList) :=
  ⟨(envVar_getBool_exact (worldOf [(CacheEnabledEnv, "true".toList)] none (⟨[]⟩, none) none)
      (withDefault CacheEnabledEnv CacheEnabledDefault) "true".toList (by decide)).1 rfl,
    (envVar_getBool_exact (worldOf [(CacheEnabledEnv, "false".toList)] none (⟨[]⟩, none) none)
      (withDefault CacheEnabledEnv CacheEnabledDefault) "false".toList (by decide)).2.1 rfl,
    (envVar_getBool_exact (worldOf [(CacheEnabledEnv, "True".toList)] none (⟨[]⟩, none) none)
      (withDefault CacheEnabledEnv CacheEnabledDefault) "True".toList (by decide)).2.2.1
      (by decide) (by decide),
    (envVar_getBool_exact (worldOf [(CacheEnabledEnv, "1".toList)] none (⟨[]⟩, none) none)
      (withDefault CacheEnabledEnv CacheEnabledDefault) "1".toList (by decide)).2.2.1
      (by decide) (by decide),
    (envVar_getBool_exact (worldOf [(CacheEnabledEnv, "yes".toList)] none (⟨[]⟩, none) none)
      (withDefault CacheEnabledEnv CacheEnabledDefault) "yes".toList (by decide)).2.2.1
      (by decide) (by decide),
    (envVar_getBool_exact (worldOf [(CacheEnabledEnv, " true".toList)] none (⟨[]⟩, none) none)
      (withDefault CacheEnabledEnv CacheEnabledDefault) " true".toList (by decide)).2.2.1
      (by decide) (by decide)⟩

/-! ## The claims on the claim mapping table -/

/-- The table after a loop over well-formed fragments is the table before it
with the entries of the fragments written over it: a key named by a fragment
has the value of the last fragment that names it, a key no fragment names
keeps what it had, and nothing else is in the table. -/
theorem fromStringLoop_overlay (F : claimMappingsT) (frags : List GoString)
    (hgood : ∀ f ∈ frags, f ≠ [] → ':' ∈ f) :
    (∀ pre f post k v, frags = pre ++ f :: post → f = k ++ ':' :: v → ':' ∉ v →
        (∀ g ∈ post, ∀ v', ':' ∉ v' → g ≠ k ++ ':' :: v') →
        (fromStringLoop F frags).1.index k = some v)
    ∧ (∀ k, (∀ f ∈ frags, ∀ v, ':' ∉ v → f ≠ k ++ ':' :: v) →
        (fromStringLoop F frags).1.index k = F.index k)
    ∧ (∀ k v, (fromStringLoop F frags).1.index k = some v →
        F.index k = some v ∨ ∃ f ∈ frags, f = k ++ ':' :: v ∧ ':' ∉ v) := by
  refine ⟨?_, ?_, ?_⟩
  · intro pre f post k v hsplit hf hv hpost
    subst hsplit
    have hpre : ∀ g ∈ pre, g ≠ [] → ':' ∈ g := fun g hg =>
      hgood g (List.mem_append_left _ hg)
    have hmem : ':' ∈ f := by
      rw [hf]
      exact List.mem_append_right k (List.mem_cons_self ':' v)
    obtain ⟨hkey, hval⟩ := cut_of_append k v hv
    rw [fromStringLoop_append_good F pre _ hpre, fromStringLoop_good_cons _ f post hmem,
      fromStringLoop_index_untouched _ post k hpost]
    rw [hf, hkey, hval]
    exact index_store_same _ k v
  · intro k hk
    exact fromStringLoop_index_untouched F frags k hk
  · intro k v h
    exact fromStringLoop_index_some F frags k v h

/-- C3: for a non-empty fragment `f` without a comma and with a colon,
`fromString` succeeds and sets one entry: `f` is `key`, a colon and `value`,
where `value` has no colon (so the cut is at the last colon of `f`); after
the call `key` maps to `value` and every other key reads as before. -/
theorem fromString_single_fragment (c : claimMappingsT) (f : GoString) (hne : f ≠ [])
    (hcomma : ',' ∉ f) (hcolon : ':' ∈ f) :
    ∃ key value c', f = key ++ ':' :: value ∧ ':' ∉ value
      ∧ c.fromString f = (c', none)
      ∧ c'.index key = some value
      ∧ ∀ k, k ≠ key → c'.index k = c.index k := by
  obtain ⟨hcut, hno⟩ := lastIndex_cut f ':' hcolon
  refine ⟨sliceTo f (strings.LastIndex f ':'), sliceFrom f (strings.LastIndex f ':' + 1),
    c.store (sliceTo f (strings.LastIndex f ':')) (sliceFrom f (strings.LastIndex f ':' + 1)),
    hcut, hno, ?_, index_store_same _ _ _, fun k hk => index_store_other _ _ _ _ hk⟩
  have _ := hne
  unfold claimMappingsT.fromString
  rw [split_of_not_mem f ',' hcomma, fromStringLoop_good_cons c f [] hcolon]
  rfl

/-- The fragment "a:b:c" on the table with "sub" gives key "a:b" the value
"c" and leaves "sub" as it was. -/
theorem fromString_single_fragment_witness :
    (∃ key value c', "a:b:c".toList = key ++ ':' :: value ∧ ':' ∉ value
      ∧ claimMappingsT.fromString ⟨[("sub".toList, "X-User".toList)]⟩ "a:b:c".toList
          = (c', none)
      ∧ c'.index key = some value
      ∧ ∀ k, k ≠ key →
          c'.index k = claimMappingsT.index ⟨[("sub".toList, "X-User".toList)]⟩ k)
    ∧ claimMappingsT.fromString ⟨[("sub".toList, "X-User".toList)]⟩ "a:b:c".toList
        = (⟨[("sub".toList, "X-User".toList), ("a:b".toList, "c".toList)]⟩, none) :=
  ⟨fromString_single_fragment ⟨[("sub".toList, "X-User".toList)]⟩ "a:b:c".toList
      (by decide) (by decide) (by decide),
    by decide⟩

/-- C2: when the mapping file loads as the table `F` and every non-empty
fragment of the inline string has a colon, `getClaimMappings` returns a table
`M` in which a key named by a fragment `key:header` has the header of the last
fragment that names it (also when `F` has the key), every key no fragment
names has what `F` has for it, and every entry comes from `F` or from a
fragment. -/
theorem getClaimMappings_merge (w : World) (path : GoString) (F : claimMappingsT)
    (hpath : NewConfig.claimMappingFilePath.get w = Except.ok path)
    (hfile : claimMappingsT.fromFile w claimMappingsT.make path = (F, none))
    (hinline : ∀ f ∈ strings.Split (w.Getenv ClaimMappingsEnv) ',', f ≠ [] → ':' ∈ f) :
    ∃ M, NewConfig.getClaimMappings w = Except.ok M
      ∧ (∀ pre f post k v, strings.Split (w.Getenv ClaimMappingsEnv) ',' = pre ++ f :: post →
          f = k ++ ':' :: v → ':' ∉ v →
          (∀ g ∈ post, ∀ v', ':' ∉ v' → g ≠ k ++ ':' :: v') → M.index k = some v)
      ∧ (∀ k, (∀ f ∈ strings.Split (w.Getenv ClaimMappingsEnv) ',',
            ∀ v, ':' ∉ v → f ≠ k ++ ':' :: v) → M.index k = F.index k)
      ∧ (∀ k v, M.index k = some v →
          F.index k = some v
          ∨ ∃ f ∈ strings.Split (w.Getenv ClaimMappingsEnv) ',', f = k ++ ':' :: v ∧ ':' ∉ v) := by
  refine ⟨(fromStringLoop F (strings.Split (w.Getenv ClaimMappingsEnv) ',')).1, ?_,
    fromStringLoop_overlay F _ hinline⟩
  have herr : (fromStringLoop F (strings.Split (w.Getenv ClaimMappingsEnv) ',')).2 = none :=
    (fromStringLoop_err_none_iff F _).mpr hinline
  rw [getClaimMappings_eq w path hpath, hfile]
  simp [claimMappingsT.fromString, herr]

/-- The file {"sub":"X-User"} with the inline string "sub:X-Other" gives
{"sub":"X-Other"}; with "sub:X-Other,aud:X-Aud,sub:X-Last" the last header of
"sub" stands and "aud" is added. -/
theorem getClaimMappings_merge_witness :
    (∃ M, NewConfig.getClaimMappings
          (worldOf [(ClaimMappingsEnv, "sub:X-Other".toList)] none
            (⟨[("sub".toList, "X-User".toList)]⟩, none) none) = Except.ok M
      ∧ M.index "sub".toList = some "X-Other".toList)
    ∧ NewConfig.getClaimMappings
        (worldOf [(ClaimMappingsEnv, "sub:X-Other".toList)] none
          (⟨[("sub".toList, "X-User".toList)]⟩, none) none)
        = Except.ok ⟨[("sub".toList, "X-Other".toList)]⟩
    ∧ NewConfig.getClaimMappings
        (worldOf [(ClaimMappingsEnv, "sub:X-Other,aud:X-Aud,sub:X-Last".toList)] none
          (⟨[("sub".toList, "X-User".toList), ("iss".toList, "X-Iss".toList)]⟩, none) none)
        = Except.ok ⟨[("sub".toList, "X-Last".toList), ("iss".toList, "X-Iss".toList),
            ("aud".toList, "X-Aud".toList)]⟩ := by
  refine ⟨?_, by decide, by decide⟩
  obtain ⟨M, hM, hset, _, _⟩ :=
    getClaimMappings_merge
      (worldOf [(ClaimMappingsEnv, "sub:X-Other".toList)] none
        (⟨[("sub".toList, "X-User".toList)]⟩, none) none)
      "config.json".toList ⟨[("sub".toList, "X-User".toList)]⟩
      (by decide) (by decide) (by decide)
  exact ⟨M, hM, hset [] "sub:X-Other".toList [] "sub".toList "X-Other".toList
    (by decide) (by decide) (by decide) (by simp)⟩

/-- C4: on the configuration of `NewConfig` the path of the mapping file always
resolves, and `getClaimMappings` aborts with "either file or env needs to be
valid" if and only if loading the file fails and the inline string has a
non-empty fragment without a colon, which is when `fromString` returns an
error; in the three other cases it returns a table, and it aborts with no
other error. -/
theorem getClaimMappings_aborts_iff (w : World) :
    ∃ path, NewConfig.claimMappingFilePath.get w = Except.ok path
      ∧ (∀ c : claimMappingsT, (c.fromString (w.Getenv ClaimMappingsEnv)).2 ≠ none
          ↔ ∃ f ∈ strings.Split (w.Getenv ClaimMappingsEnv) ',', f ≠ [] ∧ ':' ∉ f)
      ∧ (NewConfig.getClaimMappings w = Except.error Error.eitherFileOrEnv
          ↔ ((claimMappingsT.fromFile w claimMappingsT.make path).2 ≠ none
              ∧ ∃ f ∈ strings.Split (w.Getenv ClaimMappingsEnv) ',', f ≠ [] ∧ ':' ∉ f))
      ∧ (¬ ((claimMappingsT.fromFile w claimMappingsT.make path).2 ≠ none
              ∧ ∃ f ∈ strings.Split (w.Getenv ClaimMappingsEnv) ',', f ≠ [] ∧ ':' ∉ f)
          → ∃ M, NewConfig.getClaimMappings w = Except.ok M)
      ∧ (∀ err, NewConfig.getClaimMappings w = Except.error err
          → err = Error.eitherFileOrEnv) := by
  obtain ⟨path, hpath⟩ := claimMappingFilePath_resolves w
  have hfails : ∀ c : claimMappingsT, (c.fromString (w.Getenv ClaimMappingsEnv)).2 ≠ none
      ↔ ∃ f ∈ strings.Split (w.Getenv ClaimMappingsEnv) ',', f ≠ [] ∧ ':' ∉ f := by
    intro c
    unfold claimMappingsT.fromString
    rw [Ne, fromStringLoop_err_none_iff]
    push_neg
    rfl
  refine ⟨path, hpath, hfails, ?_, ?_, ?_⟩
  · rw [getClaimMappings_eq w path hpath, ← hfails (claimMappingsT.fromFile w claimMappingsT.make path).1]
    split_ifs with h
    · simp [h.1, h.2]
    · simp only [false_iff, reduceCtorEq]
      exact fun h' => h ⟨h'.2, h'.1⟩
  · intro h
    rw [← hfails (claimMappingsT.fromFile w claimMappingsT.make path).1] at h
    rw [getClaimMappings_eq w path hpath]
    split_ifs with h'
    · exact absurd ⟨h'.2, h'.1⟩ h
    · exact ⟨_, rfl⟩
  · intro err
    rw [getClaimMappings_eq w path hpath]
    split_ifs with h'
    · intro h
      exact (Except.error.inj h).symm
    · intro h
      cases h

/-- The four cases of the two sources: only a failed file together with a
malformed inline string aborts. -/
theorem getClaimMappings_aborts_iff_cases :
    NewConfig.getClaimMappings
        (worldOf [(ClaimMappingsEnv, "nocolon".toList)] (some "open".toList) (⟨[]⟩, none) none)
      = Except.error Error.eitherFileOrEnv
    ∧ NewConfig.getClaimMappings
        (worldOf [(ClaimMappingsEnv, "sub:X-Other".toList)] (some "open".toList) (⟨[]⟩, none) none)
      = Except.ok ⟨[("sub".toList, "X-Other".toList)]⟩
    ∧ NewConfig.getClaimMappings
        (worldOf [(ClaimMappingsEnv, "nocolon".toList)] none
          (⟨[("sub".toList, "X-User".toList)]⟩, none) none)
      = Except.ok ⟨[("sub".toList, "X-User".toList)]⟩
    ∧ NewConfig.getClaimMappings
        (worldOf [(ClaimMappingsEnv, "aud:X-Aud".toList)] none
          (⟨[("sub".toList, "X-User".toList)]⟩, none) none)
      = Except.ok ⟨[("sub".toList, "X-User".toList), ("aud".toList, "X-Aud".toList)]⟩ := by
  refine ⟨?_, by decide, by decide, by decide⟩
  obtain ⟨path, _, _, habort, _, _⟩ :=
    getClaimMappings_aborts_iff
      (worldOf [(ClaimMappingsEnv, "nocolon".toList)] (some "open".toList) (⟨[]⟩, none) none)
  exact habort.mpr ⟨by simp [claimMappingsT.fromFile, worldOf], by decide⟩

/-- C5, as stated, fails: the file {"sub":"X-User"} loads, the inline string
"aud:X-Aud,nocolon" does not parse, and the returned table is not the file's
table: it has the entry of the fragment before the malformed one. -/
theorem getClaimMappings_inline_failure_keeps_earlier :
    claimMappingsT.fromFile
        (worldOf [(ClaimMappingsEnv, "aud:X-Aud,nocolon".toList)] none
          (⟨[("sub".toList, "X-User".toList)]⟩, none) none)
        claimMappingsT.make "config.json".toList
      = (⟨[("sub".toList, "X-User".toList)]⟩, none)
    ∧ (claimMappingsT.fromString ⟨[]⟩ "aud:X-Aud,nocolon".toList).2
        = some (Error.unexpectedColons "nocolon".toList)
    ∧ NewConfig.getClaimMappings
        (worldOf [(ClaimMappingsEnv, "aud:X-Aud,nocolon".toList)] none
          (⟨[("sub".toList, "X-User".toList)]⟩, none) none)
      = Except.ok ⟨[("sub".toList, "X-User".toList), ("aud".toList, "X-Aud".toList)]⟩
    ∧ NewConfig.getClaimMappings
        (worldOf [(ClaimMappingsEnv, "aud:X-Aud,nocolon".toList)] none
          (⟨[("sub".toList, "X-User".toList)]⟩, none) none)
      ≠ Except.ok ⟨[("sub".toList, "X-User".toList)]⟩
    ∧ claimMappingsT.index ⟨[("sub".toList, "X-User".toList)]⟩ "aud".toList = none
    ∧ claimMappingsT.index
        ⟨[("sub".toList, "X-User".toList), ("aud".toList, "X-Aud".toList)]⟩ "aud".toList
      = some "X-Aud".toList := by
  decide

/-- C5, amended: when the mapping file loads as the table `F` and the inline
string has a non-empty fragment without a colon, `getClaimMappings` does not
abort; with `pre` the fragments before the first such fragment, the returned
table `M` is `F` with the entries of `pre` written over it (a key named in
`pre` has the header of the last fragment of `pre` that names it, a key not
named in `pre` has what `F` has, every entry comes from `F` or from `pre`), so
the malformed fragment and the fragments after it add nothing, and `M` is `F`
itself when `pre` has only empty fragments. -/
theorem getClaimMappings_inline_failure (w : World) (path : GoString) (F : claimMappingsT)
    (hpath : NewConfig.claimMappingFilePath.get w = Except.ok path)
    (hfile : claimMappingsT.fromFile w claimMappingsT.make path = (F, none))
    (hinline : ∃ f ∈ strings.Split (w.Getenv ClaimMappingsEnv) ',', f ≠ [] ∧ ':' ∉ f) :
    ∃ pre bad post M, strings.Split (w.Getenv ClaimMappingsEnv) ',' = pre ++ bad :: post
      ∧ (∀ f ∈ pre, f ≠ [] → ':' ∈ f) ∧ bad ≠ [] ∧ ':' ∉ bad
      ∧ NewConfig.getClaimMappings w = Except.ok M
      ∧ (∀ p f q k v, pre = p ++ f :: q → f = k ++ ':' :: v → ':' ∉ v →
          (∀ g ∈ q, ∀ v', ':' ∉ v' → g ≠ k ++ ':' :: v') → M.index k = some v)
      ∧ (∀ k, (∀ f ∈ pre, ∀ v, ':' ∉ v → f ≠ k ++ ':' :: v) → M.index k = F.index k)
      ∧ (∀ k v, M.index k = some v →
          F.index k = some v ∨ ∃ f ∈ pre, f = k ++ ':' :: v ∧ ':' ∉ v)
      ∧ ((∀ f ∈ pre, f = []) → M = F) := by
  obtain ⟨pre, bad, post, hsplit, hpre, hne, hbad⟩ := exists_first_bad _ hinline
  have hloop := fromStringLoop_append_bad F pre bad post hpre hne hbad
  obtain ⟨h₁, h₂, h₃⟩ := fromStringLoop_overlay F pre hpre
  refine ⟨pre, bad, post, (fromStringLoop F pre).1, hsplit, hpre, hne, hbad, ?_, h₁, h₂, h₃, ?_⟩
  · rw [getClaimMappings_eq w path hpath, hfile]
    simp [claimMappingsT.fromString, hsplit, hloop]
  · intro hempty
    rw [fromStringLoop_all_empty F pre hempty]

/-- The file {"sub":"X-User"} with the inline string "nocolon,aud:X-Aud"
gives the file's table, and with "aud:X-Aud,nocolon,iss:X-Iss" the file's
table with "aud" and without "iss". -/
theorem getClaimMappings_inline_failure_witness :
    (∃ pre bad post M,
      strings.Split
          ((worldOf [(ClaimMappingsEnv, "aud:X-Aud,nocolon,iss:X-Iss".toList)] none
            (⟨[("sub".toList, "X-User".toList)]⟩, none) none).Getenv ClaimMappingsEnv) ','
        = pre ++ bad :: post
      ∧ (∀ f ∈ pre, f ≠ [] → ':' ∈ f) ∧ bad ≠ [] ∧ ':' ∉ bad
      ∧ NewConfig.getClaimMappings
          (worldOf [(ClaimMappingsEnv, "aud:X-Aud,nocolon,iss:X-Iss".toList)] none
            (⟨[("sub".toList, "X-User".toList)]⟩, none) none) = Except.ok M
      ∧ (∀ p f q k v, pre = p ++ f :: q → f = k ++ ':' :: v → ':' ∉ v →
          (∀ g ∈ q, ∀ v', ':' ∉ v' → g ≠ k ++ ':' :: v') → M.index k = some v)
      ∧ (∀ k, (∀ f ∈ pre, ∀ v, ':' ∉ v → f ≠ k ++ ':' :: v) →
          M.index k = claimMappingsT.index ⟨[("sub".toList, "X-User".toList)]⟩ k)
      ∧ (∀ k v, M.index k = some v →
          claimMappingsT.index ⟨[("sub".toList, "X-User".toList)]⟩ k = some v
          ∨ ∃ f ∈ pre, f = k ++ ':' :: v ∧ ':' ∉ v)
      ∧ ((∀ f ∈ pre, f = []) → M = ⟨[("sub".toList, "X-User".toList)]⟩))
    ∧ NewConfig.getClaimMappings
        (worldOf [(ClaimMappingsEnv, "aud:X-Aud,nocolon,iss:X-Iss".toList)] none
          (⟨[("sub".toList, "X-User".toList)]⟩, none) none)
      = Except.ok ⟨[("sub".toList, "X-User".toList), ("aud".toList, "X-Aud".toList)]⟩
    ∧ NewConfig.getClaimMappings
        (worldOf [(ClaimMappingsEnv, "nocolon,aud:X-Aud".toList)] none
          (⟨[("sub".toList, "X-User".toList)]⟩, none) none)
      = Except.ok ⟨[("sub".toList, "X-User".toList)]⟩ :=
  ⟨getClaimMappings_inline_failure
      (worldOf [(ClaimMappingsEnv, "aud:X-Aud,nocolon,iss:X-Iss".toList)] none
        (⟨[("sub".toList, "X-User".toList)]⟩, none) none)
      "config.json".toList ⟨[("sub".toList, "X-User".toList)]⟩
      (by decide) (by decide) (by decide),
    by decide, by decide⟩

/-- C6, as stated, fails: with a mapping file that cannot be opened and
CLAIM_MAPPINGS unset, or set to the empty string, `getClaimMappings` does not
abort: the empty inline string parses without error and the empty table is
returned. -/
theorem getClaimMappings_empty_inline_no_abort :
    (claimMappingsT.fromFile
        (worldOf [] (some "open config.json: no such file or directory".toList) (⟨[]⟩, none) none)
        claimMappingsT.make "config.json".toList).2 ≠ none
    ∧ (worldOf [] (some "open config.json: no such file or directory".toList) (⟨[]⟩, none)
        none).Getenv ClaimMappingsEnv = []
    ∧ claimMappingsT.fromString ⟨[]⟩ [] = (⟨[]⟩, none)
    ∧ NewConfig.getClaimMappings
        (worldOf [] (some "open config.json: no such file or directory".toList) (⟨[]⟩, none) none)
      = Except.ok ⟨[]⟩
    ∧ NewConfig.getClaimMappings
        (worldOf [(ClaimMappingsEnv, [])] (some "open config.json: no such file or directory".toList)
          (⟨[]⟩, none) none)
      = Except.ok ⟨[]⟩
    ∧ NewConfig.getClaimMappings
        (worldOf [] (some "open config.json: no such file or directory".toList) (⟨[]⟩, none) none)
      ≠ Except.error Error.eitherFileOrEnv := by
  decide

/-- C6, amended: when loading the mapping file fails, leaving the table `T`,
and the inline string is empty, the inline string parses without error, as
its one fragment has length zero and is skipped, and `getClaimMappings` does
not abort but returns `T`; when the failure is that of opening the file, `T`
is the empty table. -/
theorem getClaimMappings_empty_inline (w : World) (path : GoString) (T : claimMappingsT)
    (e : ExtErr) (hpath : NewConfig.claimMappingFilePath.get w = Except.ok path)
    (hfile : claimMappingsT.fromFile w claimMappingsT.make path = (T, some e))
    (hinline : w.Getenv ClaimMappingsEnv = []) :
    T.fromString (w.Getenv ClaimMappingsEnv) = (T, none)
      ∧ NewConfig.getClaimMappings w = Except.ok T
      ∧ (w.Open path ≠ none → T = claimMappingsT.make) := by
  have hparse : T.fromString (w.Getenv ClaimMappingsEnv) = (T, none) := by
    rw [hinline]
    rfl
  refine ⟨hparse, ?_, ?_⟩
  · rw [getClaimMappings_eq w path hpath, hfile]
    simp [hparse]
  · intro hopen
    unfold claimMappingsT.fromFile at hfile
    cases hopen' : w.Open path with
    | none => exact absurd hopen' hopen
    | some err =>
      rw [hopen'] at hfile
      exact (Prod.mk.inj hfile).1.symm

/-- A mapping file that cannot be opened and no CLAIM_MAPPINGS: the empty
table is returned. -/
theorem getClaimMappings_empty_inline_witness :
    claimMappingsT.fromString ⟨[]⟩
        ((worldOf [] (some "open config.json: no such file or directory".toList)
          (⟨[]⟩, none) none).Getenv ClaimMappingsEnv) = (⟨[]⟩, none)
    ∧ NewConfig.getClaimMappings
        (worldOf [] (some "open config.json: no such file or directory".toList)
          (⟨[]⟩, none) none)
      = Except.ok ⟨[]⟩
    ∧ ((worldOf [] (some "open config.json: no such file or directory".toList)
          (⟨[]⟩, none) none).Open "config.json".toList ≠ none
        → (⟨[]⟩ : claimMappingsT) = claimMappingsT.make) :=
  getClaimMappings_empty_inline
    (worldOf [] (some "open config.json: no such file or directory".toList) (⟨[]⟩, none) none)
    "config.json".toList ⟨[]⟩ "open config.json: no such file or directory".toList
    (by decide) (by decide) (by decide)

/-! ## The claims on the cache and on the decoder -/

/-- How `getCache` ends when the maximum number of keys resolves to a string
that parses to `n`. -/
theorem getCache_eq (w : World) (c : Config) (str : GoString) (n : Int)
    (hget : c.maxCacheKeys.get w = Except.ok str) (hparse : w.ParseInt str = (n, none)) :
    c.getCache w
      = if n < 1 then Except.error (Error.maxKeysNotPositive n)
        else
          match w.NewCache ⟨10000000, mulInt64 n c.keyCost, 64, true⟩ with
          | some err => Except.error (Error.external err)
          | none => Except.ok ⟨⟨10000000, mulInt64 n c.keyCost, 64, true⟩⟩ := by
  have hkeys : c.maxCacheKeys.getInt64 w = Except.ok n := by
    unfold envVar.getInt64
    rw [hget]
    simp only [hparse]
  unfold Config.getCache
  rw [hkeys]

/-- C8: when the resolved MAX_CACHE_KEYS value parses as the integer `n`,
`getCache` aborts with the max-keys error if and only if `n < 1`; for
`1 ≤ n` it goes on to `ristretto.NewCache` and ends as that call does. -/
theorem getCache_aborts_iff (w : World) (c : Config) (str : GoString) (n : Int)
    (hget : c.maxCacheKeys.get w = Except.ok str) (hparse : w.ParseInt str = (n, none)) :
    (c.getCache w = Except.error (Error.maxKeysNotPositive n) ↔ n < 1)
    ∧ ((∃ keys, c.getCache w = Except.error (Error.maxKeysNotPositive keys)) ↔ n < 1)
    ∧ (1 ≤ n → ∃ config : RistrettoConfig,
        (w.NewCache config = none → c.getCache w = Except.ok ⟨config⟩)
        ∧ (∀ err, w.NewCache config = some err →
            c.getCache w = Except.error (Error.external err))) := by
  rw [getCache_eq w c str n hget hparse]
  refine ⟨?_, ?_, ?_⟩
  · by_cases h : n < 1
    · simp [h]
    · rw [if_neg h]
      cases w.NewCache ⟨10000000, mulInt64 n c.keyCost, 64, true⟩ <;> simp [h]
  · by_cases h : n < 1
    · simp [h]
    · rw [if_neg h]
      cases w.NewCache ⟨10000000, mulInt64 n c.keyCost, 64, true⟩ <;> simp [h]
  · intro h
    have h' : ¬ n < 1 := by omega
    rw [if_neg h']
    refine ⟨⟨10000000, mulInt64 n c.keyCost, 64, true⟩, ?_, ?_⟩
    · intro hnew
      rw [hnew]
    · intro err hnew
      rw [hnew]

/-- MAX_CACHE_KEYS set to 0 and to -5 aborts with the value in the error; set
to 1, and unset (10000), the cache is built. -/
theorem getCache_aborts_iff_witness :
    NewConfig.getCache (worldOf [(MaxCacheKeysEnv, "0".toList)] none (⟨[]⟩, none) none)
      = Except.error (Error.maxKeysNotPositive 0)
    ∧ NewConfig.getCache (worldOf [(MaxCacheKeysEnv, "-5".toList)] none (⟨[]⟩, none) none)
      = Except.error (Error.maxKeysNotPositive (-5))
    ∧ NewConfig.getCache (worldOf [(MaxCacheKeysEnv, "1".toList)] none (⟨[]⟩, none) none)
      = Except.ok ⟨⟨10000000, 100, 64, true⟩⟩
    ∧ NewConfig.getCache (worldOf [] none (⟨[]⟩, none) none)
      = Except.ok ⟨⟨10000000, 1000000, 64, true⟩⟩ :=
  ⟨(getCache_aborts_iff (worldOf [(MaxCacheKeysEnv, "0".toList)] none (⟨[]⟩, none) none)
      NewConfig "0".toList 0 (by decide) (by decide)).1.mpr (by decide),
    (getCache_aborts_iff (worldOf [(MaxCacheKeysEnv, "-5".toList)] none (⟨[]⟩, none) none)
      NewConfig "-5".toList (-5) (by decide) (by decide)).1.mpr (by decide),
    by decide, by decide⟩

/-- C9, as stated, fails: MAX_CACHE_KEYS set to 92233720368547759 is accepted
by `getCache`, and the `int64` product with the key cost 100 wraps to
-9223372036854775716: the budget handed to the cache, which is built with it,
is not 92233720368547759 x 100, not positive and not at least the key
count. -/
theorem getCache_maxCost_wraps :
    (withDefault MaxCacheKeysEnv MaxCacheKeysDefault).getInt64
        (worldOf [(MaxCacheKeysEnv, "92233720368547759".toList)] none (⟨[]⟩, none) none)
      = Except.ok 92233720368547759
    ∧ (1 : Int) ≤ 92233720368547759 ∧ (92233720368547759 : Int) < 2 ^ 63
    ∧ NewConfig.getCache
        (worldOf [(MaxCacheKeysEnv, "92233720368547759".toList)] none (⟨[]⟩, none) none)
      = Except.ok ⟨⟨10000000, -9223372036854775716, 64, true⟩⟩
    ∧ (-9223372036854775716 : Int) ≠ 92233720368547759 * 100
    ∧ ¬ ((0 : Int) < -9223372036854775716)
    ∧ ¬ ((92233720368547759 : Int) ≤ -9223372036854775716) := by
  decide

/-- C9, amended: on the configuration of `NewConfig`, for a key count `n` with
`1 ≤ n` whose product with the key cost 100 is in the `int64` range
(`n ≤ 92233720368547758`), the configuration handed to `ristretto.NewCache`
has `MaxCost` equal to `n * 100`, which is positive and at least `n`. -/
theorem getCache_maxCost (w : World) (str : GoString) (n : Int)
    (hget : NewConfig.maxCacheKeys.get w = Except.ok str)
    (hparse : w.ParseInt str = (n, none)) (hpos : 1 ≤ n) (hfit : n ≤ 92233720368547758) :
    NewConfig.keyCost = 100
    ∧ ∃ config : RistrettoConfig, config.MaxCost = n * 100
        ∧ 0 < config.MaxCost ∧ n ≤ config.MaxCost
        ∧ (w.NewCache config = none → NewConfig.getCache w = Except.ok ⟨config⟩)
        ∧ (∀ err, w.NewCache config = some err →
            NewConfig.getCache w = Except.error (Error.external err)) := by
  have hmul : mulInt64 n NewConfig.keyCost = n * 100 := by
    have hcost : NewConfig.keyCost = 100 := rfl
    rw [hcost]
    unfold mulInt64 wrapInt64
    omega
  have h' : ¬ n < 1 := by omega
  rw [getCache_eq w NewConfig str n hget hparse, if_neg h', hmul]
  refine ⟨rfl, ⟨10000000, n * 100, 64, true⟩, rfl, ?_, ?_, ?_, ?_⟩
  · show 0 < n * 100
    omega
  · show n ≤ n * 100
    omega
  · intro hnew
    rw [hnew]
  · intro err hnew
    rw [hnew]

/-- MAX_CACHE_KEYS unset resolves to 10000 keys and a budget of 1000000. -/
theorem getCache_maxCost_witness :
    NewConfig.keyCost = 100
    ∧ ∃ config : RistrettoConfig, config.MaxCost = 10000 * 100
        ∧ 0 < config.MaxCost ∧ 10000 ≤ config.MaxCost
        ∧ ((worldOf [] none (⟨[]⟩, none) none).NewCache config = none →
            NewConfig.getCache (worldOf [] none (⟨[]⟩, none) none) = Except.ok ⟨config⟩)
        ∧ (∀ err, (worldOf [] none (⟨[]⟩, none) none).NewCache config = some err →
            NewConfig.getCache (worldOf [] none (⟨[]⟩, none) none)
              = Except.error (Error.external err)) :=
  getCache_maxCost (worldOf [] none (⟨[]⟩, none) none) "10000".toList 10000
    (by decide) (by decide) (by decide) (by decide)

/-- C10, as stated, fails: with FORCE_JWKS_ON_START set to "yes" and a decoder
whose construction fails, `getServer` aborts with the unknown-bool-value error
before it selects the decoder, while with the same environment and no
construction error it selects the cached decoder. -/
theorem getServer_aborts_on_flag :
    NewConfig.getServerDecoder
        (worldOf [(JwksURLEnv, "https://idp/jwks".toList), (ForceJwksOnStart, "yes".toList)] none
          (⟨[("sub".toList, "X-User".toList)]⟩, none) (some "jwks unreachable".toList))
      = Except.error (Error.unknownBoolValue "yes".toList)
    ∧ NewConfig.getServerDecoder
        (worldOf [(JwksURLEnv, "https://idp/jwks".toList), (ForceJwksOnStart, "yes".toList)] none
          (⟨[("sub".toList, "X-User".toList)]⟩, none) none)
      = Except.ok (TokenDecoder.cached ⟨⟨10000000, 1000000, 64, true⟩⟩
          ⟨"https://idp/jwks".toList, ⟨[("sub".toList, "X-User".toList)]⟩⟩) := by
  decide

/-- C10, amended: in `getServer`, when the JWKS URL resolves to `url`, the
claim mappings to `M` and FORCE_JWKS_ON_START to the string `flag`: if `flag`
is "true" or "false" (unset it is the default "true"), then whether or not
the construction of the decoder fails, and for either value of the flag,
`getServer` goes on to select the decoder by CACHE_ENABLED: the decoder itself
for "false", the cached decoder for "true", with the same result as in the
world where the construction succeeds; if `flag` is any other string and the
construction fails, `getServer` aborts with the unknown-bool-value error. -/
theorem getServer_decoder_failure (w : World) (url flag : GoString) (M : claimMappingsT)
    (hurl : NewConfig.jwksURL.get w = Except.ok url)
    (hM : NewConfig.getClaimMappings w = Except.ok M)
    (hflag : NewConfig.forceJwksOnStart.get w = Except.ok flag) :
    (flag = "true".toList ∨ flag = "false".toList →
      NewConfig.getServerDecoder w
        = match NewConfig.cacheEnabled.getBool w with
          | Except.error err => Except.error err
          | Except.ok true =>
            match NewConfig.getCache w with
            | Except.error err => Except.error err
            | Except.ok cache => Except.ok (TokenDecoder.cached cache ⟨url, M⟩)
          | Except.ok false => Except.ok (TokenDecoder.jws ⟨url, M⟩))
    ∧ (flag = "true".toList ∨ flag = "false".toList →
        NewConfig.getServerDecoder w
          = NewConfig.getServerDecoder { w with NewJwsDecoder := fun _ _ => none })
    ∧ (flag ≠ "true".toList → flag ≠ "false".toList → w.NewJwsDecoder url M ≠ none →
        NewConfig.getServerDecoder w = Except.error (Error.unknownBoolValue flag)) := by
  have hbool := getBool_eq w NewConfig.forceJwksOnStart flag hflag
  have hselect : flag = "true".toList ∨ flag = "false".toList →
      NewConfig.getServerDecoder w
        = match NewConfig.cacheEnabled.getBool w with
          | Except.error err => Except.error err
          | Except.ok true =>
            match NewConfig.getCache w with
            | Except.error err => Except.error err
            | Except.ok cache => Except.ok (TokenDecoder.cached cache ⟨url, M⟩)
          | Except.ok false => Except.ok (TokenDecoder.jws ⟨url, M⟩) := by
    intro hflagBool
    have hok : ∃ b, NewConfig.forceJwksOnStart.getBool w = Except.ok b := by
      rcases hflagBool with h | h
      · exact ⟨true, by rw [hbool, if_pos h]⟩
      · have h' : flag ≠ "true".toList := by
          rw [h]
          decide
        exact ⟨false, by rw [hbool, if_neg h', if_pos h]⟩
    obtain ⟨b, hb⟩ := hok
    unfold Config.getServerDecoder
    rw [hurl, hM]
    cases hnew : w.NewJwsDecoder url M with
    | none => simp only [hnew]
    | some err => simp only [hnew, hb]
  refine ⟨hselect, ?_, ?_⟩
  · intro hflagBool
    have hurl' : NewConfig.jwksURL.get { w with NewJwsDecoder := fun _ _ => none }
        = Except.ok url := hurl
    have hM' : NewConfig.getClaimMappings { w with NewJwsDecoder := fun _ _ => none }
        = Except.ok M := hM
    rw [hselect hflagBool]
    conv_rhs => unfold Config.getServerDecoder
    rw [hurl', hM']
    rfl
  · intro h₁ h₂ hnew
    unfold Config.getServerDecoder
    rw [hurl, hM]
    cases hnew' : w.NewJwsDecoder url M with
    | none => exact absurd hnew' hnew
    | some err =>
      have hb : NewConfig.forceJwksOnStart.getBool w
          = Except.error (Error.unknownBoolValue flag) := by
        rw [hbool, if_neg h₁, if_neg h₂]
      simp only [hnew', hb]

/-- With a decoder whose construction fails: FORCE_JWKS_ON_START unset, "true"
and "false" all select the decoder (cached by default, the decoder itself
with CACHE_ENABLED "false"); "yes" aborts. -/
theorem getServer_decoder_failure_witness :
    NewConfig.getServerDecoder
        (worldOf [(JwksURLEnv, "https://idp/jwks".toList)] none
          (⟨[("sub".toList, "X-User".toList)]⟩, none) (some "jwks unreachable".toList))
      = Except.ok (TokenDecoder.cached ⟨⟨10000000, 1000000, 64, true⟩⟩
          ⟨"https://idp/jwks".toList, ⟨[("sub".toList, "X-User".toList)]⟩⟩)
    ∧ NewConfig.getServerDecoder
        (worldOf [(JwksURLEnv, "https://idp/jwks".toList), (ForceJwksOnStart, "true".toList),
            (CacheEnabledEnv, "false".toList)] none
          (⟨[("sub".toList, "X-User".toList)]⟩, none) (some "jwks unreachable".toList))
      = Except.ok (TokenDecoder.jws
          ⟨"https://idp/jwks".toList, ⟨[("sub".toList, "X-User".toList)]⟩⟩)
    ∧ NewConfig.getServerDecoder
        (worldOf [(JwksURLEnv, "https://idp/jwks".toList), (ForceJwksOnStart, "false".toList),
            (CacheEnabledEnv, "false".toList)] none
          (⟨[("sub".toList, "X-User".toList)]⟩, none) (some "jwks unreachable".toList))
      = Except.ok (TokenDecoder.jws
          ⟨"https://idp/jwks".toList, ⟨[("sub".toList, "X-User".toList)]⟩⟩)
    ∧ NewConfig.getServerDecoder
        (worldOf [(JwksURLEnv, "https://idp/jwks".toList), (ForceJwksOnStart, "yes".toList)] none
          (⟨[("sub".toList, "X-User".toList)]⟩, none) (some "jwks unreachable".toList))
      = Except.error (Error.unknownBoolValue "yes".toList) := by
  refine ⟨?_, ?_, ?_, ?_⟩
  · rw [(getServer_decoder_failure
      (worldOf [(JwksURLEnv, "https://idp/jwks".toList)] none
        (⟨[("sub".toList, "X-User".toList)]⟩, none) (some "jwks unreachable".toList))
      "https://idp/jwks".toList "true".toList ⟨[("sub".toList, "X-User".toList)]⟩
      (by decide) (by decide) (by decide)).1 (Or.inl rfl)]
    decide
  · rw [(getServer_decoder_failure
      (worldOf [(JwksURLEnv, "https://idp/jwks".toList), (ForceJwksOnStart, "true".toList),
          (CacheEnabledEnv, "false".toList)] none
        (⟨[("sub".toList, "X-User".toList)]⟩, none) (some "jwks unreachable".toList))
      "https://idp/jwks".toList "true".toList ⟨[("sub".toList, "X-User".toList)]⟩
      (by decide) (by decide) (by decide)).1 (Or.inl rfl)]
    decide
  · rw [(getServer_decoder_failure
      (worldOf [(JwksURLEnv, "https://idp/jwks".toList), (ForceJwksOnStart, "false".toList),
          (CacheEnabledEnv, "false".toList)] none
        (⟨[("sub".toList, "X-User".toList)]⟩, none) (some "jwks unreachable".toList))
      "https://idp/jwks".toList "false".toList ⟨[("sub".toList, "X-User".toList)]⟩
      (by decide) (by decide) (by decide)).1 (Or.inr rfl)]
    decide
  · exact (getServer_decoder_failure
      (worldOf [(JwksURLEnv, "https://idp/jwks".toList), (ForceJwksOnStart, "yes".toList)] none
        (⟨[("sub".toList, "X-User".toList)]⟩, none) (some "jwks unreachable".toList))
      "https://idp/jwks".toList "yes".toList ⟨[("sub".toList, "X-User".toList)]⟩
      (by decide) (by decide) (by decide)).2.2 (by decide) (by decide) (by decide)

end JwtDecode
